import Mathlib

/-!
Verification of `recbole/MetaModule/MetaUtils.py` (shallow embedding).

Torch tensors are modelled as lists of rationals (exact arithmetic in
place of floating point); gradient tuples as lists of such tensors.
Python's insertion-ordered `dict` / `OrderedDict` is modelled as an
association list in which a key is inserted at the end on first write
and updated in place afterwards.  Operations that can raise a Python
exception return `Except String` / carry an `Option String` error slot.
-/

namespace MetaUtils

/-- Elements of a 1-D torch tensor, exact-arithmetic model. -/
abbrev Tensor1 := List ℚ

/-- Elementwise tensor addition (torch `+=` on same-shape tensors). -/
def addT (a b : Tensor1) : Tensor1 := List.zipWith (· + ·) a b

/-- First-match lookup in an association list; model of Python `dict`
reading (`d[k]`, `k in d`). -/
def lookupVal {α : Type} : List (String × α) → String → Option α
  | [], _ => none
  | p :: rest, nm => if p.1 = nm then some p.2 else lookupVal rest nm

/-- One iteration of `GradCollector.addGrad`: `if name not in self.gradDict:
self.gradDict[name] = gradTuple[index] else: self.gradDict[name] += gradTuple[index]`.
A Python dict inserts a fresh key at the end and updates an existing key in
place. -/
def upsertAdd (d : List (String × Tensor1)) (nm : String) (g : Tensor1) :
    List (String × Tensor1) :=
  match lookupVal d nm with
  | none => d ++ [(nm, g)]
  | some _ => d.map (fun p => if p.1 = nm then (p.1, addT p.2 g) else p)

/-- The loop of `GradCollector.addGrad`: `for index,name in
enumerate(self.paramNameList)`, reading `gradTuple[index]`.  Reading past the
end of the tuple raises `IndexError` at that iteration, after the earlier
iterations have already written into the dict. -/
def addGradAux (d : List (String × Tensor1)) (names : List String)
    (grads : List Tensor1) (idx : ℕ) : List (String × Tensor1) × Option String :=
  match names with
  | [] => (d, none)
  | nm :: rest =>
    match grads[idx]? with
    | some g => addGradAux (upsertAdd d nm g) rest grads (idx + 1)
    | none => (d, some ("IndexError: tuple index out of range"))

/-- `GradCollector` state: the name list fixed by `__init__` and the
insertion-ordered gradient dict. -/
structure GradCollector where
  paramNameList : List String
  gradDict : List (String × Tensor1)

/-- `GradCollector.__init__(paramsNameList)`: stores the name list, dict empty. -/
def GradCollector.make (paramsNameList : List String) : GradCollector :=
  { paramNameList := paramsNameList, gradDict := [] }

/-- `GradCollector.addGrad(gradTuple)`.  Returns the new state together with
the raised exception, if any (the state reflects all writes performed before
the exception). -/
def GradCollector.addGrad (c : GradCollector) (gradTuple : List Tensor1) :
    GradCollector × Option String :=
  let r := addGradAux c.gradDict c.paramNameList gradTuple 0
  ({ paramNameList := c.paramNameList, gradDict := r.1 }, r.2)

/-- `GradCollector.averageGrad(size)`: `self.gradDict[name] = self.gradDict[name]/size`
for every entry.  The source performs no check on `size`; torch float division
raises no exception (division by zero yields inf/nan; here, rational division,
which at a nonzero denominator agrees with exact real division), so the result
is always `.ok`. -/
def GradCollector.averageGrad (c : GradCollector) (size : ℚ) :
    Except String GradCollector :=
  .ok { paramNameList := c.paramNameList,
        gradDict := c.gradDict.map (fun p => (p.1, p.2.map (fun x => x / size))) }

/-- `GradCollector.clearGrad()`: `self.gradDict = OrderedDict()`. -/
def GradCollector.clearGrad (c : GradCollector) : GradCollector :=
  { paramNameList := c.paramNameList, gradDict := [] }

/-- `GradCollector.dumpGrad()`: returns the dict and rebinds the internal one
to a fresh empty dict. -/
def GradCollector.dumpGrad (c : GradCollector) :
    List (String × Tensor1) × GradCollector :=
  (c.gradDict, c.clearGrad)

/-- Repeated `addGrad` over a batch of gradient tuples (the per-task loop of
the meta-training step), keeping only the state. -/
def foldAddGrad (c : GradCollector) (gs : List (List Tensor1)) : GradCollector :=
  gs.foldl (fun acc t => (acc.addGrad t).1) c

/-- Value of a dict entry after one `addGrad` write: initialized on first
write, elementwise-added on later writes. -/
def combineGrad (o : Option Tensor1) (g : Tensor1) : Tensor1 :=
  match o with
  | some v => addT v g
  | none => g

/-- `Task`: task information, support set and query set.  Interactions are
modelled as lists of rows. -/
structure Task where
  taskInfo : List (String × ℤ)
  spt : List (List ℚ)
  qrt : List (List ℚ)

/-- `Task.__init__(taskInfo, spt, qrt)`: three attribute assignments and
nothing else.  The `Except` wrapper makes the absence of any `raise` in the
constructor observable: every call returns `.ok`. -/
def Task.init (taskInfo : List (String × ℤ)) (spt qrt : List (List ℚ)) :
    Except String Task :=
  .ok { taskInfo := taskInfo, spt := spt, qrt := qrt }

/-- Comparison used by `torch.topk` on the indices of a score vector: higher
score first, ties broken towards the lower index (the stable tie-break of the
underlying ordering primitive, which the spec requires preserved). -/
def cmpIdx (xs : List ℚ) (i j : ℕ) : Prop :=
  xs.getD i 0 > xs.getD j 0 ∨ (xs.getD i 0 = xs.getD j 0 ∧ i ≤ j)

instance cmpIdxDecidable (xs : List ℚ) : DecidableRel (cmpIdx xs) := fun i j => by
  unfold cmpIdx
  infer_instance

/-- Index list returned by `torch.topk(xs, k)`: the `k` indices of the
highest entries, in decreasing-score order. -/
def topkIdx (xs : List ℚ) (k : ℕ) : List ℕ :=
  ((List.range xs.length).insertionSort (cmpIdx xs)).take k

/-- `torch.topk` raises when `k` exceeds the dimension size. -/
def torchTopk (xs : List ℚ) (k : ℕ) : Except String (List ℕ) :=
  if k ≤ xs.length then .ok (topkIdx xs k)
  else .error ("RuntimeError: selected index k out of range")

/-- Integer-tensor index assignment `v[idxs] = x`: writes `x` at every listed
index and raises `IndexError` when some index is out of bounds. -/
def indexFill (v : List ℤ) (idxs : List ℕ) (x : ℤ) : Except String (List ℤ) :=
  if idxs.all (fun i => decide (i < v.length)) then
    .ok ((List.range v.length).map (fun i => if i ∈ idxs then x else v.getD i 0))
  else .error ("IndexError: index out of bounds")

/-- `torch.gather(v, 0, idxs)`: reads `v` at every listed index and raises
`IndexError` when some index is out of bounds. -/
def torchGather (v : List ℤ) (idxs : List ℕ) : Except String (List ℤ) :=
  if idxs.all (fun i => decide (i < v.length)) then
    .ok (idxs.map (fun i => v.getD i 0))
  else .error ("IndexError: index out of bounds")

/-- The `rec.topk` branch of `MetaCollector.eval_collect`: top-`k` indices of
the predictions and of the labels, a 0/1 position matrix marking the label
top-`k`, its total (`pos_len_list`), the gather of the position matrix at the
predicted top-`k` indices, and the emitted row `pos_idx ++ [pos_len]`. -/
def evalCollectTopk (eval_pred data_label : List ℚ) (k : ℕ) :
    Except String (List ℤ) :=
  match torchTopk eval_pred k with
  | .error err => .error err
  | .ok eval_topk_idx =>
    match torchTopk data_label k with
    | .error err => .error err
    | .ok label_topk_idx =>
      match indexFill (List.replicate eval_pred.length 0) label_topk_idx 1 with
      | .error err => .error err
      | .ok pos_matrix =>
        match torchGather pos_matrix eval_topk_idx with
        | .error err => .error err
        | .ok pos_idx => .ok (pos_idx ++ [pos_matrix.sum])

/-- Which evidence kinds have registered consumers (`self.register.need`). -/
structure CollectorRegister where
  needScore : Bool
  needLabel : Bool
  needTopk : Bool

/-- The accumulated evaluation evidence (`self.data_struct`); `update_tensor`
appends along the batch dimension. -/
structure CollectorData where
  recScore : List ℚ
  dataLabel : List ℚ
  recTopk : List (List ℤ)

/-- `MetaCollector.eval_collect(eval_pred, data_label)`.  `topkMax` stands
for `max(self.topk)`, the maximum configured cutoff. -/
def eval_collect (reg : CollectorRegister) (topkMax : ℕ) (ds : CollectorData)
    (eval_pred data_label : List ℚ) : Except String CollectorData :=
  let ds1 := if reg.needScore then
      { ds with recScore := ds.recScore ++ eval_pred } else ds
  let ds2 := if reg.needLabel then
      { ds1 with dataLabel := ds1.dataLabel ++ data_label } else ds1
  if reg.needTopk then
    match evalCollectTopk eval_pred data_label topkMax with
    | .error err => .error err
    | .ok row => .ok { ds2 with recTopk := ds2.recTopk ++ [row] }
  else .ok ds2

/-- RecBole feature types relevant to `EmbeddingTable`. -/
inductive FeatureType where
  | TOKEN
  | TOKEN_SEQ
  | FLOAT
  | FLOAT_SEQ
deriving DecidableEq

/-- The slice of the RecBole dataset interface consumed by `EmbeddingTable`
(the external FieldCatalog): the user/item field list as returned by
`dataset.fields(source=[USER, ITEM])`, each field's type, and each field's
cardinality `dataset.num(field)`. -/
structure MetaDataset where
  userItemFields : List String
  field2type : String → FeatureType
  num : String → ℕ

/-- Dynamically-typed torch tensors as they occur in this module: integer
index tensors, 1-D float tensors, 2-D float tensors. -/
inductive PyTensor where
  | ints (xs : List ℤ)
  | floats (xs : List ℚ)
  | floats2 (xs : List (List ℚ))

/-- `EmbeddingTable` state after construction. -/
structure EmbeddingTable where
  embeddingSize : ℕ
  dataset : MetaDataset
  embeddingFields : List String
  embeddingDict : List (String × List (List ℚ))

/-- Weight matrix of `nn.Embedding(rows, cols)`; the random initial weights
are abstracted by the entry function `w`. -/
def initMatrix (w : String → ℕ → ℕ → ℚ) (f : String) (rows cols : ℕ) :
    List (List ℚ) :=
  (List.range rows).map (fun r => (List.range cols).map (fun c => w f r c))

/-- `EmbeddingTable.__init__` followed by `initialize()`: stores the
user/item field list as `self.embeddingFields` and fills `self.embeddingDict`
with one `nn.Embedding(dataset.num(field), embeddingSize)` per `TOKEN` field,
in field order. -/
def EmbeddingTable.build (embeddingSize : ℕ) (dataset : MetaDataset)
    (w : String → ℕ → ℕ → ℚ) : EmbeddingTable :=
  { embeddingSize := embeddingSize
    dataset := dataset
    embeddingFields := dataset.userItemFields
    embeddingDict :=
      (dataset.userItemFields.filter
        (fun f => decide (dataset.field2type f = FeatureType.TOKEN))).map
        (fun f => (f, initMatrix w f (dataset.num f) embeddingSize)) }

/-- `EmbeddingTable.fieldType(field)`: `self.dataset.field2type[field]`. -/
def EmbeddingTable.fieldType (e : EmbeddingTable) (field : String) : FeatureType :=
  e.dataset.field2type field

/-- Row lookup performed by `nn.Embedding.forward` on an integer index
tensor: each index must lie in `[0, rows)`, otherwise `IndexError` is
raised. -/
def nnEmbeddingLookup (mat : List (List ℚ)) : List ℤ → Except String (List (List ℚ))
  | [] => .ok []
  | i :: rest =>
    if 0 ≤ i ∧ i.toNat < mat.length then
      match nnEmbeddingLookup mat rest with
      | .ok rows => .ok (mat.getD i.toNat [] :: rows)
      | .error err => .error err
    else .error ("IndexError: index out of range in self")

/-- `EmbeddingTable.embeddingSingleField(field, batchX)`: identity on a
non-TOKEN field; embedding lookup on a TOKEN field
(`self.embeddingDict[field](batchX)`: a missing dict key raises `KeyError`, a
non-integer tensor raises a torch type error, an out-of-range index raises
`IndexError`). -/
def EmbeddingTable.embeddingSingleField (e : EmbeddingTable) (field : String)
    (batchX : PyTensor) : Except String PyTensor :=
  if e.fieldType field = FeatureType.TOKEN then
    match lookupVal e.embeddingDict field with
    | none => .error ("KeyError")
    | some mat =>
      match batchX with
      | .ints xs =>
        match nnEmbeddingLookup mat xs with
        | .ok rows => .ok (.floats2 rows)
        | .error err => .error err
      | _ => .error ("TypeError: embedding indices must have integer type")
  else .ok batchX

/-- `interaction[field]`: raises `KeyError` when the interaction lacks the
field. -/
def interactionGet (interaction : String → Option PyTensor) (field : String) :
    Except String PyTensor :=
  match interaction field with
  | some t => .ok t
  | none => .error ("KeyError")

/-- View of a tensor as a 2-D float tensor, as `torch.cat(-, dim=1)`
requires. -/
def rowsOf : PyTensor → Option (List (List ℚ))
  | .floats2 xs => some xs
  | _ => none

/-- `torch.cat(ts, dim=1)`: every input must be 2-D with the same leading
dimension; rows are concatenated featurewise. -/
def catDim1 (ts : List PyTensor) : Except String PyTensor :=
  match ts.mapM rowsOf with
  | none => .error ("IndexError: Dimension out of range")
  | some ms =>
    match ms with
    | [] => .error ("RuntimeError: expected a non-empty list of Tensors")
    | m :: rest =>
      if rest.all (fun u => decide (u.length = m.length)) then
        .ok (.floats2 (rest.foldl (fun acc u => List.zipWith (· ++ ·) acc u) m))
      else .error ("RuntimeError: Sizes of tensors must match")

/-- The loop of `embeddingAllFields`: `for field in self.embeddingFields:
batchX.append(self.embeddingSingleField(field, interaction[field]))`. -/
def embedFieldsLoop (e : EmbeddingTable) (interaction : String → Option PyTensor) :
    List String → Except String (List PyTensor)
  | [] => .ok []
  | field :: rest =>
    match interactionGet interaction field with
    | .error err => .error err
    | .ok col =>
      match e.embeddingSingleField field col with
      | .error err => .error err
      | .ok feature =>
        match embedFieldsLoop e interaction rest with
        | .error err => .error err
        | .ok batchX => .ok (feature :: batchX)

/-- `EmbeddingTable.embeddingAllFields(interaction)`: embeds
`interaction[field]` for every field in `self.embeddingFields`, in that
order, and concatenates the results along the feature dimension
(`torch.cat(batchX, dim=1)`). -/
def EmbeddingTable.embeddingAllFields (e : EmbeddingTable)
    (interaction : String → Option PyTensor) : Except String PyTensor :=
  match embedFieldsLoop e interaction e.embeddingFields with
  | .ok batchX => catDim1 batchX
  | .error err => .error err

/-- Concrete field catalog used by the witnesses: a TOKEN field `"uid"` of
cardinality 3 and a FLOAT field `"age"`. -/
def sampleDataset : MetaDataset :=
  { userItemFields := ["uid", "age"]
    field2type := fun f => if f = "uid" then FeatureType.TOKEN else FeatureType.FLOAT
    num := fun _ => 3 }

/-- Concrete embedding weights used by the witnesses: row `r` holds the value
`r` in every column. -/
def sampleWeights : String → ℕ → ℕ → ℚ := fun _ r _ => (r : ℚ)

end MetaUtils

namespace MetaUtils

/-! Helper lemmas about `lookupVal`, `upsertAdd` and `addGradAux`. -/

theorem lookupVal_append_self {α : Type} (d : List (String × α)) (nm : String)
    (v : α) (h : lookupVal d nm = none) :
    lookupVal (d ++ [(nm, v)]) nm = some v := by
  induction d with
  | nil => simp [lookupVal]
  | cons p rest ih =>
    by_cases hp : p.1 = nm
    · simp [lookupVal, hp] at h
    · simp only [lookupVal, hp, if_neg, List.cons_append] at h ⊢
      exact ih h

theorem lookupVal_append_other {α : Type} (d : List (String × α))
    (nm nm' : String) (v : α) (h : nm' ≠ nm) :
    lookupVal (d ++ [(nm, v)]) nm' = lookupVal d nm' := by
  have hnn : ¬(nm = nm') := fun hh => h hh.symm
  induction d with
  | nil => simp [lookupVal, hnn]
  | cons p rest ih =>
    by_cases hp : p.1 = nm'
    · simp [lookupVal, hp]
    · simp only [List.cons_append, lookupVal, hp, if_neg]
      exact ih

theorem lookupVal_map_update (d : List (String × Tensor1)) (nm : String)
    (g : Tensor1) :
    lookupVal (d.map (fun p => if p.1 = nm then (p.1, addT p.2 g) else p)) nm =
      (lookupVal d nm).map (fun v => addT v g) := by
  induction d with
  | nil => simp [lookupVal]
  | cons p rest ih =>
    by_cases hp : p.1 = nm
    · simp [lookupVal, hp]
    · simp [lookupVal, hp, ih]

theorem lookupVal_map_update_other (d : List (String × Tensor1)) (nm nm' : String)
    (g : Tensor1) (h : nm' ≠ nm) :
    lookupVal (d.map (fun p => if p.1 = nm then (p.1, addT p.2 g) else p)) nm' =
      lookupVal d nm' := by
  have hnn : ¬(nm = nm') := fun hh => h hh.symm
  induction d with
  | nil => simp [lookupVal]
  | cons p rest ih =>
    by_cases hp : p.1 = nm
    · simp [lookupVal, hp, hnn, ih]
    · by_cases hq : p.1 = nm'
      · simp [lookupVal, hp, hq, h, hnn]
      · simp [lookupVal, hp, hq, ih]

theorem lookupVal_upsertAdd_self (d : List (String × Tensor1)) (nm : String)
    (g : Tensor1) :
    lookupVal (upsertAdd d nm g) nm = some (combineGrad (lookupVal d nm) g) := by
  unfold upsertAdd
  cases h : lookupVal d nm with
  | none => simp [combineGrad, lookupVal_append_self d nm g h]
  | some v => simp [combineGrad, lookupVal_map_update, h]

theorem lookupVal_upsertAdd_other (d : List (String × Tensor1)) (nm nm' : String)
    (g : Tensor1) (h : nm' ≠ nm) :
    lookupVal (upsertAdd d nm g) nm' = lookupVal d nm' := by
  unfold upsertAdd
  cases hl : lookupVal d nm with
  | none => exact lookupVal_append_other d nm nm' g h
  | some v => exact lookupVal_map_update_other d nm nm' g h

theorem getElem?_eq_some_getD {α : Type} (l : List α) (i : ℕ) (d : α)
    (h : i < l.length) : l[i]? = some (l.getD i d) := by
  simp [List.getD_eq_getElem?_getD, List.getElem?_eq_getElem h]

theorem addGradAux_none_of_le (names : List String) :
    ∀ (d : List (String × Tensor1)) (grads : List Tensor1) (idx : ℕ),
      idx + names.length ≤ grads.length → (addGradAux d names grads idx).2 = none := by
  induction names with
  | nil => intro d grads idx _; rfl
  | cons nm rest ih =>
    intro d grads idx h
    have hidx : idx < grads.length := by
      have := h
      simp [List.length_cons] at this
      omega
    rw [addGradAux, getElem?_eq_some_getD grads idx [] hidx]
    exact ih _ grads (idx + 1) (by simp at h ⊢; omega)

theorem addGradAux_short (names : List String) :
    ∀ (d : List (String × Tensor1)) (grads : List Tensor1) (idx : ℕ),
      idx ≤ grads.length → grads.length < idx + names.length →
      addGradAux d names grads idx =
        ((addGradAux d (names.take (grads.length - idx)) grads idx).1,
          some ("IndexError: tuple index out of range")) := by
  induction names with
  | nil => intro d grads idx h1 h2; simp at h2; omega
  | cons nm rest ih =>
    intro d grads idx h1 h2
    by_cases hidx : idx < grads.length
    · have hg : grads[idx]? = some (grads.getD idx []) :=
        getElem?_eq_some_getD grads idx [] hidx
      have htake : grads.length - idx = (grads.length - (idx + 1)) + 1 := by omega
      rw [addGradAux, hg, htake]
      rw [List.take_succ_cons, addGradAux, hg]
      exact ih (upsertAdd d nm (grads.getD idx [])) grads (idx + 1)
        (by omega) (by simp at h2 ⊢; omega)
    · have hidx' : grads.length ≤ idx := by omega
      have hg : grads[idx]? = none := by
        simp [List.getElem?_eq_none hidx']
      have htake : grads.length - idx = 0 := by omega
      rw [addGradAux, hg, htake]
      simp [addGradAux]

theorem addGradAux_lookup_notmem (names : List String) :
    ∀ (d : List (String × Tensor1)) (grads : List Tensor1) (idx : ℕ) (nm : String),
      nm ∉ names →
      lookupVal (addGradAux d names grads idx).1 nm = lookupVal d nm := by
  induction names with
  | nil => intro d grads idx nm _; rfl
  | cons hd rest ih =>
    intro d grads idx nm hnm
    have h1 : nm ≠ hd := fun hh => hnm (by simp [hh])
    have h2 : nm ∉ rest := fun hh => hnm (by simp [hh])
    rw [addGradAux]
    cases grads[idx]? with
    | some g => rw [ih _ grads (idx + 1) nm h2, lookupVal_upsertAdd_other d hd nm g h1]
    | none => rfl

theorem addGradAux_lookup_mem (names : List String) :
    ∀ (d : List (String × Tensor1)) (grads : List Tensor1) (idx k : ℕ),
      names.Nodup → idx + names.length ≤ grads.length → k < names.length →
      lookupVal (addGradAux d names grads idx).1 (names.getD k "") =
        some (combineGrad (lookupVal d (names.getD k "")) (grads.getD (idx + k) [])) := by
  induction names with
  | nil => intro d grads idx k _ _ hk; simp at hk
  | cons nm rest ih =>
    intro d grads idx k hnd hlen hk
    have hidx : idx < grads.length := by simp at hlen; omega
    rw [addGradAux, getElem?_eq_some_getD grads idx [] hidx]
    have hnotmem : nm ∉ rest := (List.nodup_cons.mp hnd).1
    match k with
    | 0 =>
      rw [show (nm :: rest).getD 0 "" = nm from rfl]
      rw [addGradAux_lookup_notmem rest _ grads (idx + 1) nm hnotmem,
        lookupVal_upsertAdd_self]
      simp
    | k + 1 =>
      have hk' : k < rest.length := by simp at hk; omega
      have hmem : rest.getD k "" ∈ rest := by
        rw [List.getD_eq_getElem rest "" hk']
        exact List.getElem_mem hk'
      have hne : rest.getD k "" ≠ nm := fun hh => hnotmem (hh ▸ hmem)
      rw [show (nm :: rest).getD (k + 1) "" = rest.getD k "" from rfl]
      rw [ih (upsertAdd d nm (grads.getD idx [])) grads (idx + 1) k
        (List.nodup_cons.mp hnd).2 (by simp at hlen ⊢; omega) hk']
      rw [lookupVal_upsertAdd_other d nm _ _ hne]
      rw [show idx + 1 + k = idx + (k + 1) from by omega]

theorem foldAddGrad_lookup (gs : List (List Tensor1)) :
    ∀ (c : GradCollector) (k : ℕ), c.paramNameList.Nodup →
      (∀ t ∈ gs, c.paramNameList.length ≤ t.length) →
      k < c.paramNameList.length →
      lookupVal (foldAddGrad c gs).gradDict (c.paramNameList.getD k "") =
        gs.foldl (fun o t => some (combineGrad o (t.getD k [])))
          (lookupVal c.gradDict (c.paramNameList.getD k "")) := by
  induction gs with
  | nil => intro c k _ _ _; rfl
  | cons t rest ih =>
    intro c k hnd hlen hk
    have step : lookupVal ((c.addGrad t).1).gradDict (c.paramNameList.getD k "") =
        some (combineGrad (lookupVal c.gradDict (c.paramNameList.getD k ""))
          (t.getD k [])) := by
      show lookupVal (addGradAux c.gradDict c.paramNameList t 0).1 _ = _
      have := addGradAux_lookup_mem c.paramNameList c.gradDict t 0 k hnd
        (by have := hlen t (by simp); omega) hk
      simpa using this
    have hpn : ((c.addGrad t).1).paramNameList = c.paramNameList := rfl
    show lookupVal (foldAddGrad (c.addGrad t).1 rest).gradDict _ = _
    rw [show c.paramNameList = ((c.addGrad t).1).paramNameList from rfl] at hk hnd ⊢
    rw [ih (c.addGrad t).1 k hnd
      (fun u hu => hlen u (by simp [hu])) hk]
    rw [List.foldl_cons]
    rw [hpn, step]

theorem foldl_combine_some (ls : List (List Tensor1)) (k : ℕ) :
    ∀ v : Tensor1,
      ls.foldl (fun o t => some (combineGrad o (t.getD k []))) (some v) =
        some (ls.foldl (fun w t => addT w (t.getD k [])) v) := by
  induction ls with
  | nil => intro v; rfl
  | cons t rest ih =>
    intro v
    rw [List.foldl_cons, List.foldl_cons]
    rw [show combineGrad (some v) (t.getD k []) = addT v (t.getD k []) from rfl]
    exact ih (addT v (t.getD k []))

theorem length_addT (a b : Tensor1) (h : b.length = a.length) :
    (addT a b).length = a.length := by
  simp [addT, h]

theorem getD_addT (a b : Tensor1) (j : ℕ) (hj : j < a.length)
    (h : b.length = a.length) : (addT a b).getD j 0 = a.getD j 0 + b.getD j 0 := by
  have hj2 : j < b.length := by omega
  have hz : j < (addT a b).length := by rw [length_addT a b h]; exact hj
  rw [List.getD_eq_getElem _ _ hz, List.getD_eq_getElem _ _ hj,
    List.getD_eq_getElem _ _ hj2]
  simp [addT]

theorem foldl_addT_spec (gs : List (List Tensor1)) (k L : ℕ) :
    ∀ v : Tensor1, v.length = L → (∀ t ∈ gs, (t.getD k []).length = L) →
      (gs.foldl (fun w t => addT w (t.getD k [])) v).length = L ∧
      ∀ j, j < L → (gs.foldl (fun w t => addT w (t.getD k [])) v).getD j 0 =
        v.getD j 0 + (gs.map (fun t => (t.getD k []).getD j 0)).sum := by
  induction gs with
  | nil => intro v hv _; exact ⟨hv, fun j _ => by simp⟩
  | cons t rest ih =>
    intro v hv hsh
    have ht : (t.getD k []).length = L := hsh t (by simp)
    have hvt : (addT v (t.getD k [])).length = L := by
      rw [length_addT v _ (by rw [ht, hv])]; exact hv
    obtain ⟨hl, hg⟩ := ih (addT v (t.getD k [])) hvt (fun u hu => hsh u (by simp [hu]))
    refine ⟨by simpa using hl, fun j hj => ?_⟩
    rw [List.foldl_cons, hg j hj, getD_addT v _ j (by omega) (by rw [ht, hv])]
    simp [add_assoc]

theorem lookupVal_map_div (d : List (String × Tensor1)) (nm : String) (size : ℚ) :
    lookupVal (d.map (fun p => (p.1, p.2.map (fun x => x / size)))) nm =
      (lookupVal d nm).map (fun v => v.map (fun x => x / size)) := by
  induction d with
  | nil => rfl
  | cons p rest ih => by_cases hp : p.1 = nm <;> simp [lookupVal, hp, ih]

theorem getD_map_div (v : Tensor1) (size : ℚ) (j : ℕ) (hj : j < v.length) :
    (v.map (fun x => x / size)).getD j 0 = v.getD j 0 / size := by
  rw [List.getD_eq_getElem _ _ (by simpa using hj), List.getD_eq_getElem _ _ hj]
  simp

/-- C1: for every batch of gradient tuples of consistent shapes (each tuple at
least as long as the name list, entry `k` of every tuple of length `L`),
accumulating each tuple once with `addGrad` and then calling
`averageGrad(n)` leaves, for the `k`-th parameter name, exactly the
elementwise arithmetic mean of the tuples' `k`-th entries; and the result is
the same for every accumulation order (every permutation `gs'` of the batch
yields the same averaged value). -/
theorem addGrad_averageGrad_mean (names : List String) (gs : List (List Tensor1))
    (k j L : ℕ) (hnd : names.Nodup) (hne : gs ≠ [])
    (hlen : ∀ t ∈ gs, names.length ≤ t.length)
    (hk : k < names.length)
    (hshape : ∀ t ∈ gs, (t.getD k []).length = L) (hj : j < L) :
    ∀ gs' : List (List Tensor1), gs.Perm gs' →
      ∃ c' v,
        (foldAddGrad (GradCollector.make names) gs').averageGrad (gs.length : ℚ) =
          .ok c' ∧
        lookupVal c'.gradDict (names.getD k "") = some v ∧
        v.getD j 0 =
          (gs.map (fun t => (t.getD k []).getD j 0)).sum / (gs.length : ℚ) := by
  intro gs' hperm
  have hlen' : ∀ t ∈ gs', names.length ≤ t.length :=
    fun t ht => hlen t (hperm.mem_iff.mpr ht)
  have hshape' : ∀ t ∈ gs', (t.getD k []).length = L :=
    fun t ht => hshape t (hperm.mem_iff.mpr ht)
  have hfold := foldAddGrad_lookup gs' (GradCollector.make names) k hnd hlen' hk
  rw [show (GradCollector.make names).paramNameList = names from rfl] at hfold
  rw [show lookupVal (GradCollector.make names).gradDict (names.getD k "") = none
    from rfl] at hfold
  cases gs' with
  | nil => exact absurd hperm.eq_nil hne
  | cons u rest =>
    have hu : (u.getD k []).length = L := hshape' u (by simp)
    have hrest : ∀ t ∈ rest, (t.getD k []).length = L :=
      fun t ht => hshape' t (by simp [ht])
    obtain ⟨hwlen, hwget⟩ :=
      foldl_addT_spec rest k L (u.getD k []) hu hrest
    simp only [List.foldl_cons] at hfold
    rw [show combineGrad none (u.getD k []) = u.getD k [] from rfl] at hfold
    rw [foldl_combine_some rest k (u.getD k [])] at hfold
    refine ⟨_, (rest.foldl (fun w t => addT w (t.getD k [])) (u.getD k [])).map
      (fun x => x / (gs.length : ℚ)), rfl, ?_, ?_⟩
    · show lookupVal ((foldAddGrad (GradCollector.make names) (u :: rest)).gradDict.map
        (fun p => (p.1, p.2.map (fun x => x / (gs.length : ℚ))))) (names.getD k "") = _
      rw [lookupVal_map_div, hfold]
      rfl
    · rw [getD_map_div _ _ j (by rw [hwlen]; exact hj), hwget j hj]
      have hsum : (gs.map (fun t => (t.getD k []).getD j 0)).sum =
          ((u :: rest).map (fun t => (t.getD k []).getD j 0)).sum :=
        (hperm.map (fun t => (t.getD k []).getD j 0)).sum_eq
      rw [hsum, List.map_cons, List.sum_cons]

/-- C1 witness: names `["a"]`, tuples `[[2]]` and `[[4]]` accumulated in the
swapped order, averaged by 2: the entry for `"a"` is the mean `[3]`. -/
theorem addGrad_averageGrad_mean_witness :
    ∃ c' v,
      (foldAddGrad (GradCollector.make ["a"]) [[[4]], [[2]]]).averageGrad 2 =
        .ok c' ∧
      lookupVal c'.gradDict "a" = some v ∧ v.getD 0 0 = 3 := by
  have h := addGrad_averageGrad_mean ["a"] [[[2]], [[4]]] 0 0 1
    (by simp) (by simp)
    (by intro t ht; rcases List.mem_cons.mp ht with hh | hh
        · subst hh; simp
        · rcases List.mem_cons.mp hh with hh2 | hh2
          · subst hh2; simp
          · simp at hh2)
    (by simp)
    (by intro t ht; rcases List.mem_cons.mp ht with hh | hh
        · subst hh; simp
        · rcases List.mem_cons.mp hh with hh2 | hh2
          · subst hh2; simp
          · simp at hh2)
    (by simp)
    [[[4]], [[2]]] (List.Perm.swap [[4]] [[2]] [])
  obtain ⟨c', v, h1, h2, h3⟩ := h
  refine ⟨c', v, ?_, ?_, ?_⟩
  · norm_num at h1
    exact h1
  · simpa using h2
  · rw [h3]
    norm_num [List.getD_cons_zero]

/-- C3 counterexample input: constructing a `Task` with an empty support set,
an empty query set and a `taskInfo` with no task identifier succeeds (returns
`.ok`), instead of failing with `InvalidTaskError`. -/
theorem task_init_no_validation_cex :
    Task.init [] [] [] = .ok { taskInfo := [], spt := [], qrt := [] } := rfl

/-- C3 (amended): `Task.__init__` performs no validation at all; construction
always succeeds, storing `taskInfo`, `spt` and `qrt` unchanged, also when the
support set or query set is empty or the task identifier is missing. -/
theorem task_init_always_ok (taskInfo : List (String × ℤ))
    (spt qrt : List (List ℚ)) :
    Task.init taskInfo spt qrt = .ok { taskInfo := taskInfo, spt := spt, qrt := qrt } :=
  rfl

/-- C4: `dumpGrad` returns the currently accumulated mapping and resets the
internal dict to empty; on a fresh or just-drained collector it returns the
empty mapping (it is a total function, no error is possible); and `addGrad`
after a drain coincides with `addGrad` on a newly constructed collector with
the same name list. -/
theorem dumpGrad_drain_reset (c : GradCollector) (t : List Tensor1) :
    (c.dumpGrad).1 = c.gradDict ∧
    (c.dumpGrad).2.gradDict = [] ∧
    (c.dumpGrad).2.paramNameList = c.paramNameList ∧
    ((GradCollector.make c.paramNameList).dumpGrad).1 = [] ∧
    ((c.dumpGrad).2.dumpGrad).1 = [] ∧
    (c.dumpGrad).2.addGrad t = (GradCollector.make c.paramNameList).addGrad t :=
  ⟨rfl, rfl, rfl, rfl, rfl, rfl⟩

/-- C2 counterexample input: on a collector built over `["a", "b"]`, the call
`addGrad [[1]]` (tuple of length 1, name list of length 2) raises the index
error only after having already written the gradient for `"a"` (a partial
write), and `addGrad [[1], [2]]` on a collector over `["a"]` (tuple longer
than the name list) raises no error at all. -/
theorem addGrad_partial_write_cex :
    ((GradCollector.make ["a", "b"]).addGrad [[1]]).2 =
        some ("IndexError: tuple index out of range") ∧
    ((GradCollector.make ["a", "b"]).addGrad [[1]]).1.gradDict = [("a", [1])] ∧
    ((GradCollector.make ["a"]).addGrad [[1], [2]]).2 = none :=
  ⟨rfl, rfl, rfl⟩

/-- C2 (amended): `addGrad` performs no length validation.  When the gradient
tuple is shorter than the name list, the call raises `IndexError` upon first
reading past the tuple's end, and the accumulator state at that point already
holds the writes for every earlier position (partial writes occur); when the
tuple is at least as long as the name list, the call succeeds and any extra
entries are silently ignored. -/
theorem addGrad_length_mismatch (c : GradCollector) (t : List Tensor1) :
    (t.length < c.paramNameList.length →
      (c.addGrad t).2 = some ("IndexError: tuple index out of range") ∧
      (c.addGrad t).1.gradDict =
        (addGradAux c.gradDict (c.paramNameList.take t.length) t 0).1) ∧
    (c.paramNameList.length ≤ t.length → (c.addGrad t).2 = none) := by
  constructor
  · intro h
    have hs := addGradAux_short c.paramNameList c.gradDict t 0 (by omega) (by omega)
    constructor
    · show (addGradAux c.gradDict c.paramNameList t 0).2 = _
      rw [hs]
    · show (addGradAux c.gradDict c.paramNameList t 0).1 = _
      rw [hs]
      simp
  · intro h
    exact addGradAux_none_of_le c.paramNameList c.gradDict t 0 (by omega)

/-- C2 witness: the amended behavior at concrete inputs. -/
theorem addGrad_length_mismatch_witness :
    ((GradCollector.make ["x", "y"]).addGrad [[2]]).2 =
        some ("IndexError: tuple index out of range") ∧
    ((GradCollector.make ["x"]).addGrad [[2], [3]]).2 = none := by
  refine ⟨((addGrad_length_mismatch (GradCollector.make ["x", "y"]) [[2]]).1 ?_).1,
    (addGrad_length_mismatch (GradCollector.make ["x"]) [[2], [3]]).2 ?_⟩
  · show (1 : ℕ) < 2
    decide
  · show (1 : ℕ) ≤ 2
    decide

/-- C5 counterexample input: `averageGrad (-1)` (a non-positive size) does not
fail with `InvalidArgumentError`; it succeeds and divides the accumulated
tensors by `-1`. -/
theorem averageGrad_no_size_check_cex :
    GradCollector.averageGrad
        { paramNameList := ["w"], gradDict := [("w", [2])] } (-1) =
      .ok { paramNameList := ["w"], gradDict := [("w", [-2])] } := by
  norm_num [GradCollector.averageGrad]

/-- C5 (amended): `averageGrad(size)` divides every accumulated tensor by
`size` elementwise, in place, for every `size` whatsoever: the source performs
no positivity check and has no failure path, so `size <= 0` is accepted
rather than rejected with `InvalidArgumentError` (torch float division by
zero yields inf/nan without raising; the exact-arithmetic model agrees with
torch at every nonzero size). -/
theorem averageGrad_divides_unconditionally (c : GradCollector) (size : ℚ) :
    ∃ c', c.averageGrad size = .ok c' ∧
      c'.paramNameList = c.paramNameList ∧
      c'.gradDict = c.gradDict.map (fun p => (p.1, p.2.map (fun x => x / size))) :=
  ⟨_, rfl, rfl, rfl⟩

/-! Helper lemmas for the `rec.topk` branch of `eval_collect`. -/

theorem topkIdx_lt (xs : List ℚ) (k : ℕ) : ∀ i ∈ topkIdx xs k, i < xs.length := by
  intro i hi
  have h1 : i ∈ (List.range xs.length).insertionSort (cmpIdx xs) :=
    List.take_subset k _ hi
  have h2 : i ∈ List.range xs.length :=
    (List.perm_insertionSort (cmpIdx xs) (List.range xs.length)).mem_iff.mp h1
  exact List.mem_range.mp h2

theorem topkIdx_nodup (xs : List ℚ) (k : ℕ) : (topkIdx xs k).Nodup := by
  have h1 : ((List.range xs.length).insertionSort (cmpIdx xs)).Nodup :=
    (List.perm_insertionSort (cmpIdx xs) (List.range xs.length)).symm.nodup
      (List.nodup_range xs.length)
  exact (List.take_sublist k _).nodup h1

theorem topkIdx_length (xs : List ℚ) (k : ℕ) (h : k ≤ xs.length) :
    (topkIdx xs k).length = k := by
  unfold topkIdx
  rw [List.length_take,
    (List.perm_insertionSort (cmpIdx xs) (List.range xs.length)).length_eq,
    List.length_range]
  omega

theorem sum_map_ite_one (l : List ℕ) (p : ℕ → Prop) [DecidablePred p] :
    (l.map (fun i => if p i then (1 : ℤ) else 0)).sum =
      (l.countP (fun i => decide (p i)) : ℤ) := by
  induction l with
  | nil => rfl
  | cons a l ih =>
    rw [List.map_cons, List.sum_cons, ih, List.countP_cons]
    by_cases hp : p a
    · simp [hp]
      ring
    · simp [hp]

theorem countP_mem_eq_length (idxs : List ℕ) (n : ℕ) (hnd : idxs.Nodup)
    (hlt : ∀ i ∈ idxs, i < n) :
    (List.range n).countP (fun i => decide (i ∈ idxs)) = idxs.length := by
  rw [List.countP_eq_length_filter]
  have hperm : ((List.range n).filter (fun i => decide (i ∈ idxs))).Perm idxs := by
    rw [List.perm_ext_iff_of_nodup ((List.nodup_range n).filter _) hnd]
    intro a
    simp only [List.mem_filter, List.mem_range, decide_eq_true_eq]
    exact ⟨fun hh => hh.2, fun ha => ⟨hlt a ha, ha⟩⟩
  exact hperm.length_eq

theorem getD_replicate_zero (n i : ℕ) : (List.replicate n (0 : ℤ)).getD i 0 = 0 := by
  rw [List.getD_eq_getElem?_getD]
  by_cases h : i < n
  · rw [List.getElem?_eq_getElem (by simpa using h)]
    simp [List.getElem_replicate]
  · rw [List.getElem?_eq_none (by simpa using h)]
    rfl

theorem posMatrix_sum (n : ℕ) (idxs : List ℕ) (hnd : idxs.Nodup)
    (hlt : ∀ i ∈ idxs, i < n) :
    ((List.range n).map (fun i =>
      if i ∈ idxs then (1 : ℤ) else (List.replicate n (0 : ℤ)).getD i 0)).sum =
      idxs.length := by
  have hfun : (fun i => if i ∈ idxs then (1 : ℤ) else
      (List.replicate n (0 : ℤ)).getD i 0) =
      fun i => if i ∈ idxs then (1 : ℤ) else 0 := by
    funext i
    rw [getD_replicate_zero]
  rw [hfun, sum_map_ite_one, countP_mem_eq_length idxs n hnd hlt]

theorem evalCollectTopk_ok (pred label : List ℚ) (k : ℕ)
    (h1 : k ≤ pred.length) (h2 : k ≤ label.length)
    (h3 : ∀ i ∈ topkIdx label k, i < pred.length) :
    evalCollectTopk pred label k =
      .ok ((topkIdx pred k).map (fun i =>
          ((List.range pred.length).map (fun j =>
            if j ∈ topkIdx label k then (1 : ℤ)
            else (List.replicate pred.length (0 : ℤ)).getD j 0)).getD i 0) ++
        [((List.range pred.length).map (fun j =>
            if j ∈ topkIdx label k then (1 : ℤ)
            else (List.replicate pred.length (0 : ℤ)).getD j 0)).sum]) := by
  have hg1 : ((topkIdx label k).all (fun i => decide (i < pred.length))) = true := by
    rw [List.all_eq_true]
    intro i hi
    simpa using h3 i hi
  have hg2 : ((topkIdx pred k).all (fun i => decide (i < pred.length))) = true := by
    rw [List.all_eq_true]
    intro i hi
    simpa using topkIdx_lt pred k i hi
  unfold evalCollectTopk torchTopk indexFill torchGather
  simp only [List.length_replicate, List.length_map, List.length_range,
    if_pos h1, if_pos h2, if_pos hg1, if_pos hg2]

theorem evalCollectTopk_err (pred label : List ℚ) (k : ℕ)
    (h : ¬(k ≤ pred.length ∧ k ≤ label.length ∧
      ∀ i ∈ topkIdx label k, i < pred.length)) :
    ∃ e, evalCollectTopk pred label k = .error e := by
  by_cases h1 : k ≤ pred.length
  · by_cases h2 : k ≤ label.length
    · have h3 : ¬∀ i ∈ topkIdx label k, i < pred.length := by
        intro hc
        exact h ⟨h1, h2, hc⟩
      have hg1 : ¬(((topkIdx label k).all (fun i => decide (i < pred.length))) = true) := by
        intro hc
        apply h3
        intro i hi
        simpa using List.all_eq_true.mp hc i hi
      refine ⟨"IndexError: index out of bounds", ?_⟩
      unfold evalCollectTopk torchTopk indexFill
      simp only [List.length_replicate, if_pos h1, if_pos h2, if_neg hg1]
    · refine ⟨"RuntimeError: selected index k out of range", ?_⟩
      unfold evalCollectTopk torchTopk
      simp only [if_pos h1, if_neg h2]
  · refine ⟨"RuntimeError: selected index k out of range", ?_⟩
    unfold evalCollectTopk torchTopk
    simp only [if_neg h1]

/-- C6: on `predictedScores = [0.9, 0.1, 0.5, 0.3]` and
`trueLabels = [1, 0, 1, 0]` with maximum cutoff 2, `eval_collect` selects
label top-2 indices `[0, 2]` and predicted top-2 indices `[0, 2]`, and emits
the single row `[1, 1, 2]`: hit values `[1, 1]` at the predicted top-2
positions followed by the relevant-count column `2`. -/
theorem eval_collect_topk_example :
    topkIdx [0.9, 0.1, 0.5, 0.3] 2 = [0, 2] ∧
    topkIdx [1, 0, 1, 0] 2 = [0, 2] ∧
    eval_collect { needScore := false, needLabel := false, needTopk := true } 2
        { recScore := [], dataLabel := [], recTopk := [] }
        [0.9, 0.1, 0.5, 0.3] [1, 0, 1, 0] =
      .ok { recScore := [], dataLabel := [], recTopk := [[1, 1, 2]] } := by
  refine ⟨?_, ?_, ?_⟩ <;>
    norm_num [eval_collect, evalCollectTopk, torchTopk, topkIdx, indexFill,
      torchGather, cmpIdx, List.insertionSort, List.orderedInsert]
  decide

/-- C9 counterexample input: predicted scores `[3, 2, 1]` (length 3) and
labels `[5, 4]` (length 2) with cutoff 1 have mismatched lengths, yet
`eval_collect` raises no error and emits the evidence row `[1, 1]`, instead
of failing with `ShapeMismatchError`. -/
theorem eval_collect_no_shape_check_cex :
    eval_collect { needScore := false, needLabel := false, needTopk := true } 1
        { recScore := [], dataLabel := [], recTopk := [] } [3, 2, 1] [5, 4] =
      .ok { recScore := [], dataLabel := [], recTopk := [[1, 1]] } := by
  norm_num [eval_collect, evalCollectTopk, torchTopk, topkIdx, indexFill,
    torchGather, cmpIdx, List.insertionSort, List.orderedInsert]
  decide

/-- C9 (amended): `eval_collect` never compares the lengths of the two input
vectors and has no `ShapeMismatchError` path.  The call succeeds exactly when
either no ranking evidence is requested, or the cutoff fits both vectors and
every label top-k index is below the prediction vector's length (so calls
with mismatched lengths can succeed and produce evidence); otherwise it fails
with a topk range error or an indexing `IndexError`. -/
theorem eval_collect_ok_iff (reg : CollectorRegister) (kMax : ℕ)
    (ds : CollectorData) (pred label : List ℚ) :
    (∃ d, eval_collect reg kMax ds pred label = .ok d) ↔
      (reg.needTopk = false ∨
        (kMax ≤ pred.length ∧ kMax ≤ label.length ∧
          ∀ i ∈ topkIdx label kMax, i < pred.length)) := by
  unfold eval_collect
  cases htk : reg.needTopk with
  | false => simp
  | true =>
    simp only [if_true, Bool.true_eq_false, false_or]
    constructor
    · intro ⟨d, hd⟩
      by_contra hc
      obtain ⟨e, he⟩ := evalCollectTopk_err pred label kMax hc
      rw [he] at hd
      exact Except.noConfusion hd
    · intro hc
      obtain ⟨hh1, hh2, hh3⟩ := hc
      rw [evalCollectTopk_ok pred label kMax hh1 hh2 hh3]
      exact ⟨_, rfl⟩

/-- C9 witness: the amended characterization applied at the concrete
mismatched-length input `[3, 2, 1]` versus `[5, 4]` with cutoff 1: the call
succeeds. -/
theorem eval_collect_ok_iff_witness :
    ∃ d, eval_collect { needScore := false, needLabel := false, needTopk := true }
        1 { recScore := [], dataLabel := [], recTopk := [] } [3, 2, 1] [5, 4] =
      .ok d := by
  apply (eval_collect_ok_iff
    { needScore := false, needLabel := false, needTopk := true } 1
    { recScore := [], dataLabel := [], recTopk := [] } [3, 2, 1] [5, 4]).mpr
  right
  refine ⟨by norm_num, by norm_num, ?_⟩
  have ht : topkIdx [5, 4] 1 = [0] := by
    norm_num [topkIdx, cmpIdx, List.insertionSort, List.orderedInsert]
  rw [ht]
  intro i hi
  have hi0 : i = 0 := by simpa using hi
  subst hi0
  norm_num

/-- C10: whenever the `rec.topk` branch of `eval_collect` emits a row, the
trailing relevant-count column equals exactly the cutoff `k`, regardless of
how many labels are nonzero, because the label top-k always selects exactly
`k` distinct positions and each selected position is marked relevant; and
under the documented length contract (`k` at most the label length, label
length at most the prediction length) a row is always emitted. -/
theorem relevant_count_eq_topk (pred label : List ℚ) (k : ℕ) :
    (∀ row, evalCollectTopk pred label k = .ok row →
      row.getLast? = some ((k : ℤ))) ∧
    (k ≤ label.length → label.length ≤ pred.length →
      ∃ row, evalCollectTopk pred label k = .ok row) := by
  constructor
  · intro row hrow
    by_cases hc : k ≤ pred.length ∧ k ≤ label.length ∧
        ∀ i ∈ topkIdx label k, i < pred.length
    · obtain ⟨h1, h2, h3⟩ := hc
      rw [evalCollectTopk_ok pred label k h1 h2 h3] at hrow
      have hrow' := Except.ok.inj hrow
      rw [← hrow', List.getLast?_concat]
      rw [posMatrix_sum pred.length (topkIdx label k) (topkIdx_nodup label k) h3,
        topkIdx_length label k h2]
    · obtain ⟨e, he⟩ := evalCollectTopk_err pred label k hc
      rw [he] at hrow
      exact Except.noConfusion hrow
  · intro hk hll
    have h3 : ∀ i ∈ topkIdx label k, i < pred.length :=
      fun i hi => lt_of_lt_of_le (topkIdx_lt label k i hi) hll
    rw [evalCollectTopk_ok pred label k (le_trans hk hll) hk h3]
    exact ⟨_, rfl⟩

/-- C10 witness: with all-zero labels `[0, 0, 0]` and predictions
`[1, 2, 3]` at cutoff 2, a row is emitted and its trailing relevant-count
column is 2 even though no label is nonzero. -/
theorem relevant_count_eq_topk_witness :
    ∃ row, evalCollectTopk [1, 2, 3] [0, 0, 0] 2 = .ok row ∧
      row.getLast? = some ((2 : ℤ)) := by
  obtain ⟨row, hrow⟩ := (relevant_count_eq_topk [1, 2, 3] [0, 0, 0] 2).2
    (by norm_num) (by norm_num)
  exact ⟨row, hrow, (relevant_count_eq_topk [1, 2, 3] [0, 0, 0] 2).1 row hrow⟩

/-! Helper lemmas for `EmbeddingTable`. -/

theorem lookupVal_map_self {α : Type} (fs : List String) (g : String → α)
    (nm : String) (h : nm ∈ fs) :
    lookupVal (fs.map (fun f => (f, g f))) nm = some (g nm) := by
  induction fs with
  | nil => simp at h
  | cons f rest ih =>
    by_cases hf : f = nm
    · subst hf
      simp [lookupVal]
    · have hr : nm ∈ rest := by
        rcases List.mem_cons.mp h with hh | hh
        · exact absurd hh.symm hf
        · exact hh
      simp [lookupVal, hf, ih hr]

theorem length_initMatrix (w : String → ℕ → ℕ → ℚ) (f : String) (rows cols : ℕ) :
    (initMatrix w f rows cols).length = rows := by
  simp [initMatrix]

theorem lookupVal_build (sz : ℕ) (ds : MetaDataset) (w : String → ℕ → ℕ → ℚ)
    (field : String) (htok : ds.field2type field = FeatureType.TOKEN)
    (hmem : field ∈ ds.userItemFields) :
    lookupVal (EmbeddingTable.build sz ds w).embeddingDict field =
      some (initMatrix w field (ds.num field) sz) := by
  show lookupVal ((ds.userItemFields.filter
      (fun f => decide (ds.field2type f = FeatureType.TOKEN))).map
      (fun f => (f, initMatrix w f (ds.num f) sz))) field = _
  apply lookupVal_map_self
  rw [List.mem_filter]
  exact ⟨hmem, by simpa using htok⟩

theorem nnEmbeddingLookup_ok (mat : List (List ℚ)) (xs : List ℤ)
    (h : ∀ i ∈ xs, 0 ≤ i ∧ i.toNat < mat.length) :
    nnEmbeddingLookup mat xs = .ok (xs.map (fun i => mat.getD i.toNat [])) := by
  induction xs with
  | nil => rfl
  | cons i rest ih =>
    have hi := h i (by simp)
    rw [nnEmbeddingLookup, if_pos hi, ih (fun j hj => h j (by simp [hj]))]
    rfl

theorem nnEmbeddingLookup_err (mat : List (List ℚ)) (xs : List ℤ)
    (h : ∃ i ∈ xs, ¬(0 ≤ i ∧ i.toNat < mat.length)) :
    ∃ e, nnEmbeddingLookup mat xs = .error e := by
  induction xs with
  | nil => simp at h
  | cons i rest ih =>
    by_cases hi : 0 ≤ i ∧ i.toNat < mat.length
    · have hr : ∃ j ∈ rest, ¬(0 ≤ j ∧ j.toNat < mat.length) := by
        obtain ⟨j, hj, hjn⟩ := h
        rcases List.mem_cons.mp hj with hh | hh
        · subst hh
          exact absurd hi hjn
        · exact ⟨j, hh, hjn⟩
      obtain ⟨e, he⟩ := ih hr
      refine ⟨e, ?_⟩
      rw [nnEmbeddingLookup, if_pos hi, he]
    · exact ⟨_, by rw [nnEmbeddingLookup, if_neg hi]⟩

/-- C7: `embeddingSingleField` is the identity map on a non-token (continuous)
field; on a token field of a constructed table it returns, for each index in
the batch, that index's row of the field's embedding matrix, and it fails
with an index error as soon as some index lies outside `[0, cardinality)`. -/
theorem embeddingSingleField_semantics (sz : ℕ) (ds : MetaDataset)
    (w : String → ℕ → ℕ → ℚ) (field : String) (b : PyTensor) (xs : List ℤ) :
    ((EmbeddingTable.build sz ds w).fieldType field ≠ FeatureType.TOKEN →
      (EmbeddingTable.build sz ds w).embeddingSingleField field b = .ok b) ∧
    (ds.field2type field = FeatureType.TOKEN → field ∈ ds.userItemFields →
      ((∀ i ∈ xs, 0 ≤ i ∧ i.toNat < ds.num field) →
        (EmbeddingTable.build sz ds w).embeddingSingleField field (.ints xs) =
          .ok (.floats2 (xs.map (fun i =>
            (initMatrix w field (ds.num field) sz).getD i.toNat [])))) ∧
      ((∃ i ∈ xs, ¬(0 ≤ i ∧ i.toNat < ds.num field)) →
        ∃ e, (EmbeddingTable.build sz ds w).embeddingSingleField field (.ints xs) =
          .error e)) := by
  refine ⟨?_, ?_⟩
  · intro hnt
    unfold EmbeddingTable.embeddingSingleField
    rw [if_neg hnt]
  · intro htok hmem
    have htokB : (EmbeddingTable.build sz ds w).fieldType field = FeatureType.TOKEN :=
      htok
    constructor
    · intro hin
      have hin' : ∀ i ∈ xs, 0 ≤ i ∧
          i.toNat < (initMatrix w field (ds.num field) sz).length := by
        intro i hi
        rw [length_initMatrix]
        exact hin i hi
      unfold EmbeddingTable.embeddingSingleField
      rw [if_pos htokB, lookupVal_build sz ds w field htok hmem]
      show (match nnEmbeddingLookup (initMatrix w field (ds.num field) sz) xs with
        | .ok rows => Except.ok (PyTensor.floats2 rows)
        | .error err => Except.error err) = _
      rw [nnEmbeddingLookup_ok _ xs hin']
    · intro hout
      have hout' : ∃ i ∈ xs, ¬(0 ≤ i ∧
          i.toNat < (initMatrix w field (ds.num field) sz).length) := by
        obtain ⟨i, hi, hni⟩ := hout
        refine ⟨i, hi, ?_⟩
        rw [length_initMatrix]
        exact hni
      obtain ⟨e, he⟩ := nnEmbeddingLookup_err _ xs hout'
      refine ⟨e, ?_⟩
      unfold EmbeddingTable.embeddingSingleField
      rw [if_pos htokB, lookupVal_build sz ds w field htok hmem]
      show (match nnEmbeddingLookup (initMatrix w field (ds.num field) sz) xs with
        | .ok rows => Except.ok (PyTensor.floats2 rows)
        | .error err => Except.error err) = _
      rw [he]

/-- C7 witness: on the sample catalog, the FLOAT field `"age"` passes its
batch through unchanged; the TOKEN field `"uid"` (cardinality 3) maps the
index batch `[2, 0]` to rows 2 and 0 of its matrix, and fails on the
out-of-range index 3. -/
theorem embeddingSingleField_semantics_witness :
    (EmbeddingTable.build 1 sampleDataset sampleWeights).embeddingSingleField
        "age" (.floats [5]) = .ok (.floats [5]) ∧
    (EmbeddingTable.build 1 sampleDataset sampleWeights).embeddingSingleField
        "uid" (.ints [2, 0]) = .ok (.floats2 [[2], [0]]) ∧
    ∃ e, (EmbeddingTable.build 1 sampleDataset sampleWeights).embeddingSingleField
        "uid" (.ints [3]) = .error e := by
  refine ⟨?_, ?_, ?_⟩
  · exact (embeddingSingleField_semantics 1 sampleDataset sampleWeights "age"
      (.floats [5]) []).1 (by decide)
  · have h := ((embeddingSingleField_semantics 1 sampleDataset sampleWeights "uid"
      (.floats [5]) [2, 0]).2 (by decide) (by decide)).1 (by decide)
    rw [h]
    norm_num [initMatrix, sampleWeights, sampleDataset, List.range_succ,
      Int.toNat_ofNat, List.getD_cons_zero, List.getD_cons_succ]
    rfl
  · exact ((embeddingSingleField_semantics 1 sampleDataset sampleWeights "uid"
      (.floats [5]) [3]).2 (by decide) (by decide)).2 ⟨3, by decide, by decide⟩

theorem embedFieldsLoop_congr (e : EmbeddingTable)
    (interF interG : String → Option PyTensor) (fields : List String)
    (h : ∀ f ∈ fields, interF f = interG f) :
    embedFieldsLoop e interF fields = embedFieldsLoop e interG fields := by
  induction fields with
  | nil => rfl
  | cons f rest ih =>
    have hf : interF f = interG f := h f (by simp)
    rw [embedFieldsLoop, embedFieldsLoop, interactionGet, interactionGet, hf,
      ih (fun g hg => h g (by simp [hg]))]

/-- C8: the set of fields owning embedding matrices is fixed at construction
and equals exactly the categorical (TOKEN) subset of the user/item fields
declared by the field catalog, in catalog order; the embedded-field list is
the catalog's user/item field list itself; and `embeddingAllFields` reads
only those declared fields and concatenates the per-field results in that
fixed construction order, so any two interactions that agree on the declared
fields yield identical output on every call. -/
theorem embeddingTable_fixed_fields (sz : ℕ) (ds : MetaDataset)
    (w : String → ℕ → ℕ → ℚ) :
    (EmbeddingTable.build sz ds w).embeddingFields = ds.userItemFields ∧
    (EmbeddingTable.build sz ds w).embeddingDict.map Prod.fst =
      ds.userItemFields.filter
        (fun f => decide (ds.field2type f = FeatureType.TOKEN)) ∧
    (∀ interF interG : String → Option PyTensor,
      (∀ f ∈ ds.userItemFields, interF f = interG f) →
      (EmbeddingTable.build sz ds w).embeddingAllFields interF =
        (EmbeddingTable.build sz ds w).embeddingAllFields interG) := by
  refine ⟨rfl, ?_, ?_⟩
  · show ((ds.userItemFields.filter
      (fun f => decide (ds.field2type f = FeatureType.TOKEN))).map
      (fun f => (f, initMatrix w f (ds.num f) sz))).map Prod.fst = _
    rw [List.map_map]
    exact List.map_id _
  · intro interF interG h
    unfold EmbeddingTable.embeddingAllFields
    rw [embedFieldsLoop_congr (EmbeddingTable.build sz ds w) interF interG
      (EmbeddingTable.build sz ds w).embeddingFields h]

/-- C8 witness: on the sample catalog, the embedded-field order is the
catalog order, the owned matrices are exactly the TOKEN subset `["uid"]`, and
two interactions that agree on `"uid"` and `"age"` but differ elsewhere give
the same `embeddingAllFields` output. -/
theorem embeddingTable_fixed_fields_witness :
    (EmbeddingTable.build 1 sampleDataset sampleWeights).embeddingFields =
      ["uid", "age"] ∧
    (EmbeddingTable.build 1 sampleDataset sampleWeights).embeddingDict.map
      Prod.fst = ["uid"] ∧
    (EmbeddingTable.build 1 sampleDataset sampleWeights).embeddingAllFields
        (fun f => if f = "other" then some (.ints [7]) else some (.ints [0])) =
      (EmbeddingTable.build 1 sampleDataset sampleWeights).embeddingAllFields
        (fun f => if f = "other" then none else some (.ints [0])) := by
  obtain ⟨h1, h2, h3⟩ :=
    embeddingTable_fixed_fields 1 sampleDataset sampleWeights
  refine ⟨h1, ?_, ?_⟩
  · rw [h2]
    decide
  · apply h3
    intro f hf
    have : f = "uid" ∨ f = "age" := by
      simpa [sampleDataset] using hf
    rcases this with hh | hh <;> subst hh <;> rfl

end MetaUtils
